import Mathlib

/-!
Shallow embedding of the quota Usage/Reservation ledger and the
conditional-update primitive of `cinder/db/sqlalchemy/api.py`.

Rows are plain structures; the database is a list of rows; dict lookups
become `List.find?`; in-place ORM mutation becomes `List.map` with a
keyed update.  Machine-level concerns (sessions, SQL) are abstracted to
the row-level reads and writes the Python code performs, in the order it
performs them.
-/

namespace Cinder

/-- QuotaUsage row: `(id, project_id, resource, in_use, reserved,
until_refresh, updated_at)`.  `updated_at` is a timestamp in seconds
(`none` when the row was never updated). -/
structure Usage where
  id : Nat
  project_id : String
  resource : String
  in_use : Int
  reserved : Int
  until_refresh : Option Int
  updated_at : Option Int
deriving Repr, DecidableEq

/-- Modelled from the spec: `models.QuotaUsage.total` is not under `src/`;
the spec's over-quota check reads `hard_limit < delta + (in_use + reserved)`
while the code reads `quotas[r] < delta + usages[r].total`, so `total`
is `in_use + reserved`. -/
def Usage.total (u : Usage) : Int := u.in_use + u.reserved

/-- Reservation row: `(uuid, usage_id, project_id, resource, delta,
expire)`.  Generated uuid strings are modelled as naturals. -/
structure Reservation where
  uuid : Nat
  usage_id : Nat
  project_id : String
  resource : String
  delta : Int
  expire : Int
deriving Repr, DecidableEq

/-- The ledger tables: live (non-deleted) QuotaUsage rows and live
Reservation rows.  `read_deleted="no"` queries see exactly these rows, so
soft deletion is modelled as removal from the list. -/
structure LedgerDB where
  usages : List Usage
  reservations : List Reservation
deriving Repr, DecidableEq

/-- Errors a ledger operation can surface: a transient store deadlock, or
the unguarded `usages[reservation.usage_id]` lookup failure (Python
`KeyError`) tagged with the reservation whose usage row is missing. -/
inductive DbErr where
  | deadlock
  | lookupFailure (uuid : Nat)
deriving Repr, DecidableEq

/-- Modelled from the spec: `oslo_db_api.wrap_db_retry(max_retries=5,
retry_on_deadlock=True)` is an external collaborator; per the spec it
retries only transient deadlock errors, bounded, and every other failure
propagates immediately.  `op` is indexed by the attempt number. -/
def retryOnDeadlock {α : Type} (op : Nat → Except DbErr α) : Nat → Nat → Except DbErr α
  | i, 0 => op i
  | i, fuel + 1 =>
    match op i with
    | .error .deadlock => retryOnDeadlock op (i + 1) fuel
    | r => r

/-- Per-reservation state change of `reservation_commit` (api.py
lines 1828-1836): for `delta >= 0` release `min(delta, reserved)` from
`reserved`; for negative `delta` clamp it to `-in_use` when `-delta >
in_use`; then add the (possibly clamped) delta to `in_use`. -/
def commitOne (u : Usage) (d : Int) : Usage :=
  if 0 ≤ d then
    { u with reserved := u.reserved - min d u.reserved, in_use := u.in_use + d }
  else
    let d2 := if -d > u.in_use then -u.in_use else d
    { u with in_use := u.in_use + d2 }

/-- Per-reservation state change of `reservation_rollback` (api.py
lines 1859-1861): release `min(delta, reserved)` from `reserved` only
when `delta >= 0`; `in_use` is untouched. -/
def rollbackOne (u : Usage) (d : Int) : Usage :=
  if 0 ≤ d then { u with reserved := u.reserved - min d u.reserved } else u

/-- Lookup of `usages[reservation.usage_id]` in commit/rollback: the dict
is `_get_quota_usages` (rows of the project whose resource is among the
selected reservations' resources) re-keyed by usage id, so the lookup
succeeds exactly on a live usage row with that id passing the fetch
filter. -/
def usageLookup (project : String) (resources : List String) (us : List Usage)
    (uid : Nat) : Option Usage :=
  us.find? fun u => u.id == uid && u.project_id == project && resources.contains u.resource

/-- Loop shared by commit, rollback and expire: process each selected
reservation with `step` (which updates the usage rows or fails), then
delete that reservation row; abort on the first failure, as an
uncaught Python exception would. -/
def ledgerGo (step : Reservation → List Usage → Except DbErr (List Usage)) :
    List Reservation → List Usage → List Reservation →
    Except DbErr (List Usage × List Reservation)
  | [], us, live => .ok (us, live)
  | r :: rest, us, live =>
    match step r us with
    | .error e => .error e
    | .ok us2 => ledgerGo step rest us2 (live.filter fun x => x.uuid != r.uuid)

/-- Body of the `reservation_commit` loop for one reservation (api.py
lines 1827-1838): `usage = usages[reservation.usage_id]` (KeyError when
absent), then `commitOne` on that row. -/
def commitStep (project : String) (resources : List String) (r : Reservation)
    (us : List Usage) : Except DbErr (List Usage) :=
  match usageLookup project resources us r.usage_id with
  | none => .error (.lookupFailure r.uuid)
  | some _ => .ok (us.map fun u =>
      if u.id == r.usage_id && u.project_id == project && resources.contains u.resource
      then commitOne u r.delta else u)

/-- Body of the `reservation_rollback` loop for one reservation (api.py
lines 1858-1863): unconditional `usages[reservation.usage_id]` lookup,
then `rollbackOne` on that row. -/
def rollbackStep (project : String) (resources : List String) (r : Reservation)
    (us : List Usage) : Except DbErr (List Usage) :=
  match usageLookup project resources us r.usage_id with
  | none => .error (.lookupFailure r.uuid)
  | some _ => .ok (us.map fun u =>
      if u.id == r.usage_id && u.project_id == project && resources.contains u.resource
      then rollbackOne u r.delta else u)

/-- Body of the `reservation_expire` loop for one reservation (api.py
lines 1919-1927): only when `delta >= 0` does it touch
`reservation.usage` (the usage row with that id, via the ORM
relationship), releasing `min(delta, reserved)`; the row is deleted
either way. -/
def expireStep (r : Reservation) (us : List Usage) : Except DbErr (List Usage) :=
  if 0 ≤ r.delta then
    match us.find? (fun u => u.id == r.usage_id) with
    | none => .error (.lookupFailure r.uuid)
    | some _ => .ok (us.map fun u =>
        if u.id == r.usage_id then rollbackOne u r.delta else u)
  else .ok us

/-- Selection `_quota_reservations`: live reservation rows whose uuid is
among the requested ids (api.py lines 1781-1790); a deleted or unknown id
simply selects nothing. -/
def selectReservations (ids : List Nat) (db : LedgerDB) : List Reservation :=
  db.reservations.filter fun r => ids.contains r.uuid

/-- The function `reservation_commit` (api.py lines 1812-1838). -/
def reservationCommit (project : String) (ids : List Nat) (db : LedgerDB) :
    Except DbErr LedgerDB :=
  (ledgerGo (commitStep project ((selectReservations ids db).map (·.resource)))
      (selectReservations ids db) db.usages db.reservations).map fun p => ⟨p.1, p.2⟩

/-- The function `reservation_rollback` (api.py lines 1844-1863). -/
def reservationRollback (project : String) (ids : List Nat) (db : LedgerDB) :
    Except DbErr LedgerDB :=
  (ledgerGo (rollbackStep project ((selectReservations ids db).map (·.resource)))
      (selectReservations ids db) db.usages db.reservations).map fun p => ⟨p.1, p.2⟩

/-- The function `reservation_expire` (api.py lines 1909-1927): sweep
every live reservation with `expire < now`. -/
def reservationExpire (now : Int) (db : LedgerDB) : Except DbErr LedgerDB :=
  (ledgerGo expireStep (db.reservations.filter fun r => decide (r.expire < now))
      db.usages db.reservations).map fun p => ⟨p.1, p.2⟩

/-- Pointwise update of a resource-keyed usage map, modelling in-place
mutation of the ORM row held in the `usages` dict. -/
def updMap (us : String → Usage) (k : String) (u : Usage) : String → Usage :=
  fun r => if r = k then u else us r

/-- Python `until_refresh or None`: zero is falsy and is stored as NULL. -/
def orNone (n : Int) : Option Int :=
  if n = 0 then none else some n

/-- Refresh decision of `quota_reserve` (api.py lines 1655-1676), the
`refresh` flag: `in_use < 0` always refreshes; otherwise, when
`until_refresh` is set, refresh exactly if it is `<= 0` after the
decrement; otherwise (an `elif`) refresh when `max_age` is truthy,
`updated_at` is set and `now - updated_at >= max_age`. -/
def needsRefresh (maxAge now : Int) (u : Usage) : Bool :=
  if u.in_use < 0 then true
  else
    match u.until_refresh with
    | some n => decide (n - 1 ≤ 0)
    | none =>
      match u.updated_at with
      | some t => decide (maxAge ≠ 0 ∧ maxAge ≤ now - t)
      | none => false

/-- Decrement performed by the `elif usages[resource].until_refresh is not
None` branch; it happens whether or not the decremented value triggers a
refresh, but not when `in_use < 0` short-circuited. -/
def decrementUntil (u : Usage) : Usage :=
  if u.in_use < 0 then u
  else
    match u.until_refresh with
    | some n => { u with until_refresh := some (n - 1) }
    | none => u

/-- The `else` branch of the refresh step (api.py lines 1694-1699):
update `until_refresh` only when enabling it, disabling it, or lowering
it below the remaining value. -/
def improveUntil (untilParam : Int) (u : Usage) : Usage :=
  if (u.until_refresh = none ∧ untilParam ≠ 0) ∨ untilParam < u.until_refresh.getD 0
  then { u with until_refresh := orNone untilParam } else u

/-- One iteration of the refresh loop of `quota_reserve` (api.py
lines 1654-1699) on one usage row: decide, decrement, then either heal
`in_use` from the sync value and reset `until_refresh`, or apply the
`until_refresh` improvement rule. -/
def refreshUsage (syncVal untilParam maxAge now : Int) (u : Usage) : Usage :=
  let u1 := decrementUntil u
  if needsRefresh maxAge now u then
    { u1 with in_use := syncVal, until_refresh := orNone untilParam }
  else improveUntil untilParam u1

/-- The whole refresh loop `for resource in deltas.keys()`, threading the
mutated usage map. -/
def refreshAll (syncVals : String → Int) (untilParam maxAge now : Int)
    (deltas : List (String × Int)) (us : String → Usage) : String → Usage :=
  deltas.foldl
    (fun acc p => updMap acc p.1 (refreshUsage (syncVals p.1) untilParam maxAge now (acc p.1)))
    us

/-- The `overs` list of `quota_reserve` (api.py lines 1715-1721):
resources whose quota is non-negative, whose delta is non-negative, and
where `quotas[r] < delta + usages[r].total`. -/
def computeOvers (quotas : String → Int) (deltas : List (String × Int))
    (us : String → Usage) : List String :=
  (deltas.filter fun p =>
    decide (0 ≤ quotas p.1 ∧ 0 ≤ p.2 ∧ quotas p.1 < p.2 + (us p.1).total)).map Prod.fst

/-- The `unders` list of `quota_reserve` (api.py lines 1702-1706):
resources whose negative delta would push `in_use` below zero; they are
only logged, never blocked. -/
def computeUnders (deltas : List (String × Int)) (us : String → Usage) : List String :=
  (deltas.filter fun p => decide (p.2 < 0 ∧ p.2 + (us p.1).in_use < 0)).map Prod.fst

/-- Reservation-creation loop of `quota_reserve` (api.py lines
1731-1760): for each resource one Reservation row with a freshly
generated uuid (`uuids i` for the i-th creation), the current usage row's
id, the delta and the expiry; then `reserved += delta` only when
`delta > 0`. -/
def createReservations (uuids : Nat → Nat) (project : String) (expire : Int) :
    List (String × Int) → Nat → (String → Usage) → List Reservation × (String → Usage)
  | [], _, us => ([], us)
  | (r, d) :: rest, i, us =>
    let u := us r
    let resv : Reservation :=
      { uuid := uuids i, usage_id := u.id, project_id := project,
        resource := r, delta := d, expire := expire }
    let us2 := if 0 < d then updMap us r { u with reserved := u.reserved + d } else us
    let out := createReservations uuids project expire rest (i + 1) us2
    (resv :: out.1, out.2)

/-- Payload of the `OverQuota` signal (api.py lines 1769-1776): the
sorted over list, the quota limits, and the `{in_use, reserved}`
snapshot taken from the (refreshed) usage rows. -/
structure OverQuotaErr where
  overs : List String
  quotas : String → Int
  usages : String → Int × Int

/-- Post-bootstrap body of `quota_reserve` (api.py lines 1653-1778),
entered once the locking loop has a usage row for every resource in
`deltas`: refresh the usage rows, compute `overs`, and either create the
reservations (updating `reserved` for positive deltas) or fail
over-quota.  Returns the outcome, the final usage map and the created
Reservation rows; per the code's note, the usage refreshes are part of
the committed transaction even on the over-quota exit. -/
def quotaReserveBody (uuids : Nat → Nat) (syncVals quotas : String → Int)
    (project : String) (deltas : List (String × Int))
    (expire untilParam maxAge now : Int) (us0 : String → Usage) :
    Except OverQuotaErr (List Nat) × (String → Usage) × List Reservation :=
  let us1 := refreshAll syncVals untilParam maxAge now deltas us0
  let overs := computeOvers quotas deltas us1
  if overs.isEmpty then
    let out := createReservations uuids project expire deltas 0 us1
    (.ok (out.1.map (·.uuid)), out.2, out.1)
  else
    (.error
      { overs := List.insertionSort (· ≤ ·) overs,
        quotas := quotas,
        usages := fun r => ((us1 r).in_use, (us1 r).reserved) },
     us1, [])

/-- New values accepted by `_conditional_update`: a plain literal, a
reference to another ORM field of the same row, or a `db.Case`
conditional (modelled as matching a scrutinee field against candidate
values with an else result). -/
inductive UpdValue where
  | lit (v : String)
  | fieldRef (f : String)
  | caseWhen (scrut : String) (whens : List (String × String)) (els : String)
deriving Repr, DecidableEq

/-- Classification used at api.py line 528: is the value a Case clause. -/
def UpdValue.isCase : UpdValue → Bool
  | .caseWhen .. => true
  | _ => false

/-- Classification used at api.py line 530 (`is_orm_value`): the value
references an ORM field. -/
def UpdValue.isOrmField : UpdValue → Bool
  | .fieldRef _ => true
  | _ => false

/-- Python `order[order.index(key)] = (key, value)` (api.py line 525):
replace the first still-unreplaced entry of the order list carrying this
field name by the (name, value) pair. -/
def replaceInOrder (k : String) (v : UpdValue) :
    List (String × Option UpdValue) → List (String × Option UpdValue)
  | [] => []
  | (k2, w) :: rest =>
    if k2 = k ∧ w = none then (k2, some v) :: rest
    else (k2, w) :: replaceInOrder k v rest

/-- Python `key in order` (api.py line 523): true while the entry is
still the plain field-name string, i.e. not yet replaced by a pair. -/
def orderContains (k : String) (ord : List (String × Option UpdValue)) : Bool :=
  ord.any fun p => decide (p.1 = k ∧ p.2 = none)

/-- The classification loop of `_conditional_update` (api.py lines
511-534): walk the values left to right, moving fields named in the
caller's order list into their slot there and the rest into the
ORM-field, Case and literal buckets, preserving relative order. -/
def splitValues (ord : List (String × Option UpdValue)) :
    List (String × UpdValue) →
    List (String × Option UpdValue) × List (String × UpdValue) ×
      List (String × UpdValue) × List (String × UpdValue)
  | [] => (ord, [], [], [])
  | (k, v) :: rest =>
    if orderContains k ord then splitValues (replaceInOrder k v ord) rest
    else
      let out := splitValues ord rest
      if v.isCase then (out.1, out.2.1, (k, v) :: out.2.2.1, out.2.2.2)
      else if v.isOrmField then (out.1, (k, v) :: out.2.1, out.2.2.1, out.2.2.2)
      else (out.1, out.2.1, out.2.2.1, (k, v) :: out.2.2.2)

/-- Final parameter order of `_conditional_update` (api.py lines
540-545): `itertools.chain(order, orm_field_list, case_list,
unordered_list)`.  Order entries never matched by a value (a caller
defect in the source) are dropped here. -/
def conditionalUpdateOrder (order : List String) (values : List (String × UpdValue)) :
    List (String × UpdValue) :=
  let out := splitValues (order.map fun k => (k, none)) values
  (out.1.filterMap fun p => p.2.map fun v => (p.1, v)) ++ out.2.1 ++ out.2.2.1 ++ out.2.2.2

/-- Evaluation of a new value against a row (a total map from field name
to stored value). -/
def evalUpd (row : String → String) : UpdValue → String
  | .lit v => v
  | .fieldRef f => row f
  | .caseWhen f whens els =>
    ((whens.find? fun w => w.1 == row f).map Prod.snd).getD els

/-- MariaDB-style engine: assignments are applied left to right and each
right-hand side sees the assignments already applied (the behaviour the
comment at api.py lines 493-504 documents). -/
def applyUpdatesSeq (row : String → String) :
    List (String × UpdValue) → (String → String)
  | [] => row
  | (k, v) :: rest =>
    applyUpdatesSeq (fun f => if f = k then evalUpd row v else row f) rest

/-- SQLite/standard-SQL-style engine: every right-hand side is evaluated
against the pre-update row. -/
def applyUpdatesSnapshot (row0 : String → String) (upds : List (String × UpdValue)) :
    String → String :=
  fun f =>
    match upds.find? fun p => p.1 == f with
    | some p => evalUpd row0 p.2
    | none => row0 f

/-- Lock events a ledger transaction emits against the store: a
`SELECT ... FOR UPDATE` (or row write) on a QuotaUsage row, or a locked
read of a Reservation row. -/
inductive LockEv where
  | usage (id : Nat)
  | resLock (uuid : Nat)
deriving Repr, DecidableEq

/-- Usage ids locked by `_get_quota_usages` (api.py lines 1522-1531):
the project's rows for the requested resources, `ORDER BY id ASC`,
`FOR UPDATE`. -/
def prefetchUsageIds (project : String) (resources : List String) (db : LedgerDB) :
    List Nat :=
  List.insertionSort (· ≤ ·)
    ((db.usages.filter fun u => u.project_id == project && resources.contains u.resource).map
      (·.id))

/-- Lock trace of `quota_reserve`: each pass of the locking loop locks
only usage rows (ascending id); the Reservation rows it creates are
inserts, not locks of existing rows. -/
def reserveLockTrace (project : String) (deltaKeys : List String) (db : LedgerDB) :
    List LockEv :=
  (prefetchUsageIds project deltaKeys db).map LockEv.usage

/-- Lock trace of `reservation_commit`: `_get_reservation_resources` is
an unlocked read, then `_get_quota_usages` locks the usage rows
(ascending id), then `_quota_reservations` locks the reservation rows. -/
def commitLockTrace (project : String) (ids : List Nat) (db : LedgerDB) : List LockEv :=
  (prefetchUsageIds project ((selectReservations ids db).map (·.resource)) db).map LockEv.usage
    ++ (selectReservations ids db).map fun r => LockEv.resLock r.uuid

/-- Lock trace of `reservation_rollback`, same shape as commit. -/
def rollbackLockTrace (project : String) (ids : List Nat) (db : LedgerDB) : List LockEv :=
  (prefetchUsageIds project ((selectReservations ids db).map (·.resource)) db).map LockEv.usage
    ++ (selectReservations ids db).map fun r => LockEv.resLock r.uuid

/-- Lock trace of `reservation_expire` (api.py lines 1909-1927): the
expired Reservation rows are locked first (`with_for_update` on the
Reservation query), and only afterwards does the loop write (and hence
lock) the usage row of each reservation with a non-negative delta. -/
def expireLockTrace (now : Int) (db : LedgerDB) : List LockEv :=
  (db.reservations.filter fun r => decide (r.expire < now)).map
      (fun r => LockEv.resLock r.uuid)
    ++ ((db.reservations.filter fun r => decide (r.expire < now)).filter
        fun r => decide (0 ≤ r.delta)).map fun r => LockEv.usage r.usage_id

/-- Check whether an event is a usage lock. -/
def LockEv.isUsage : LockEv → Bool
  | .usage _ => true
  | .resLock _ => false

/-- Usage-lock ids of a trace, in order. -/
def usageIds (tr : List LockEv) : List Nat :=
  tr.filterMap fun e =>
    match e with
    | .usage i => some i
    | .resLock _ => none

/-- Check that no Reservation lock happens before a usage lock: once a
Reservation row is locked, no usage row is locked afterwards. -/
def usageFirst : List LockEv → Bool
  | [] => true
  | .usage _ :: rest => usageFirst rest
  | .resLock _ :: rest => rest.all fun e => !e.isUsage

/-- The spec's global lock-ordering discipline for one transaction:
usage locks come first, in ascending id order, and only then reservation
locks. -/
def lockOrderOK (tr : List LockEv) : Prop :=
  usageFirst tr = true ∧ List.Sorted (· ≤ ·) (usageIds tr)

/-! Helper lemmas about the shared commit/rollback/expire loop. -/

theorem ledgerGo_ok_live (step : Reservation → List Usage → Except DbErr (List Usage)) :
    ∀ (sel : List Reservation) (us : List Usage) (live : List Reservation)
      (us2 : List Usage) (live2 : List Reservation),
      ledgerGo step sel us live = .ok (us2, live2) →
      live2 = live.filter fun x => sel.all fun s => x.uuid != s.uuid := by
  intro sel
  induction sel with
  | nil =>
    intro us live us2 live2 h
    rw [ledgerGo] at h
    injection h with h
    injection h with h1 h2
    simp [h2.symm]
  | cons r rest ih =>
    intro us live us2 live2 h
    cases hstep : step r us with
    | error e => rw [ledgerGo, hstep] at h; cases h
    | ok usNext =>
      rw [ledgerGo, hstep] at h
      have h2 := ih usNext _ _ _ h
      rw [h2, List.filter_filter]
      apply List.filter_congr
      intro x _
      simp [List.all_cons, Bool.and_comm]

theorem ledgerGo_ok_usages {β : Type} (step : Reservation → List Usage → Except DbErr (List Usage))
    (f : Usage → β)
    (hstep : ∀ r us usNext, step r us = .ok usNext → usNext.map f = us.map f) :
    ∀ (sel : List Reservation) (us : List Usage) (live : List Reservation)
      (us2 : List Usage) (live2 : List Reservation),
      ledgerGo step sel us live = .ok (us2, live2) → us2.map f = us.map f := by
  intro sel
  induction sel with
  | nil =>
    intro us live us2 live2 h
    rw [ledgerGo] at h
    injection h with h
    injection h with h1 h2
    rw [h1]
  | cons r rest ih =>
    intro us live us2 live2 h
    cases hs : step r us with
    | error e => rw [ledgerGo, hs] at h; cases h
    | ok usNext =>
      rw [ledgerGo, hs] at h
      exact (ih usNext _ _ _ h).trans (hstep r us usNext hs)

theorem ledgerGo_error_of_lookup (step : Reservation → List Usage → Except DbErr (List Usage))
    (P : List Usage → Prop) (r : Reservation)
    (herr : ∀ us, P us → step r us = .error (.lookupFailure r.uuid))
    (hpres : ∀ r2 us usNext, step r2 us = .ok usNext → P us → P usNext)
    (hshape : ∀ r2 us e, step r2 us = .error e → ∃ w, e = DbErr.lookupFailure w) :
    ∀ (sel : List Reservation) (us : List Usage) (live : List Reservation),
      r ∈ sel → P us →
      ∃ w, ledgerGo step sel us live = .error (.lookupFailure w) := by
  intro sel
  induction sel with
  | nil => intro us live hmem; cases hmem
  | cons r2 rest ih =>
    intro us live hmem hP
    cases hs : step r2 us with
    | error e =>
      obtain ⟨w, rfl⟩ := hshape r2 us e hs
      exact ⟨w, by rw [ledgerGo, hs]⟩
    | ok usNext =>
      rcases List.mem_cons.mp hmem with rfl | hrest
      · rw [herr us hP] at hs; cases hs
      · obtain ⟨w, hw⟩ := ih usNext (live.filter fun x => x.uuid != r2.uuid) hrest
          (hpres r2 us usNext hs hP)
        exact ⟨w, by rw [ledgerGo, hs]; exact hw⟩

theorem commitOne_fields (u : Usage) (d : Int) :
    (commitOne u d).id = u.id ∧ (commitOne u d).project_id = u.project_id ∧
      (commitOne u d).resource = u.resource := by
  unfold commitOne; split <;> exact ⟨rfl, rfl, rfl⟩

theorem rollbackOne_fields (u : Usage) (d : Int) :
    (rollbackOne u d).id = u.id ∧ (rollbackOne u d).project_id = u.project_id ∧
      (rollbackOne u d).resource = u.resource ∧ (rollbackOne u d).in_use = u.in_use := by
  unfold rollbackOne; split <;> exact ⟨rfl, rfl, rfl, rfl⟩

theorem commitStep_ok (project : String) (resources : List String) (r : Reservation)
    (us usNext : List Usage) (h : commitStep project resources r us = .ok usNext) :
    usNext = us.map fun u =>
      if u.id == r.usage_id && u.project_id == project && resources.contains u.resource
      then commitOne u r.delta else u := by
  rw [commitStep] at h
  cases hl : usageLookup project resources us r.usage_id <;> rw [hl] at h
  · cases h
  · injection h with h; exact h.symm

theorem rollbackStep_ok (project : String) (resources : List String) (r : Reservation)
    (us usNext : List Usage) (h : rollbackStep project resources r us = .ok usNext) :
    usNext = us.map fun u =>
      if u.id == r.usage_id && u.project_id == project && resources.contains u.resource
      then rollbackOne u r.delta else u := by
  rw [rollbackStep] at h
  cases hl : usageLookup project resources us r.usage_id <;> rw [hl] at h
  · cases h
  · injection h with h; exact h.symm

theorem usageLookup_none_map (project : String) (resources : List String) (uid : Nat)
    (g : Usage → Usage)
    (hg : ∀ u, (g u).id = u.id ∧ (g u).project_id = u.project_id ∧ (g u).resource = u.resource)
    (us : List Usage) (h : usageLookup project resources us uid = none) :
    usageLookup project resources (us.map g) uid = none := by
  rw [usageLookup, List.find?_eq_none] at h ⊢
  intro x hx
  rcases List.mem_map.mp hx with ⟨u, hu, rfl⟩
  have hpred := h u hu
  simpa [(hg u).1, (hg u).2.1, (hg u).2.2] using hpred

theorem commitStep_pres_none (project : String) (resources : List String) (uid : Nat)
    (r2 : Reservation) (us usNext : List Usage)
    (h : commitStep project resources r2 us = .ok usNext)
    (hP : usageLookup project resources us uid = none) :
    usageLookup project resources usNext uid = none := by
  rw [commitStep_ok project resources r2 us usNext h]
  apply usageLookup_none_map project resources uid _ _ us hP
  intro u
  split
  · exact (commitOne_fields u r2.delta)
  · exact ⟨rfl, rfl, rfl⟩

theorem rollbackStep_pres_none (project : String) (resources : List String) (uid : Nat)
    (r2 : Reservation) (us usNext : List Usage)
    (h : rollbackStep project resources r2 us = .ok usNext)
    (hP : usageLookup project resources us uid = none) :
    usageLookup project resources usNext uid = none := by
  rw [rollbackStep_ok project resources r2 us usNext h]
  apply usageLookup_none_map project resources uid _ _ us hP
  intro u
  split
  · have hf := rollbackOne_fields u r2.delta
    exact ⟨hf.1, hf.2.1, hf.2.2.1⟩
  · exact ⟨rfl, rfl, rfl⟩

theorem commitStep_err_of_none (project : String) (resources : List String)
    (r : Reservation) (us : List Usage)
    (hP : usageLookup project resources us r.usage_id = none) :
    commitStep project resources r us = .error (.lookupFailure r.uuid) := by
  rw [commitStep, hP]

theorem rollbackStep_err_of_none (project : String) (resources : List String)
    (r : Reservation) (us : List Usage)
    (hP : usageLookup project resources us r.usage_id = none) :
    rollbackStep project resources r us = .error (.lookupFailure r.uuid) := by
  rw [rollbackStep, hP]

theorem commitStep_err_shape (project : String) (resources : List String)
    (r2 : Reservation) (us : List Usage) (e : DbErr)
    (h : commitStep project resources r2 us = .error e) :
    ∃ w, e = DbErr.lookupFailure w := by
  rw [commitStep] at h
  cases hl : usageLookup project resources us r2.usage_id <;> rw [hl] at h
  · injection h with h; exact ⟨r2.uuid, h.symm⟩
  · cases h

theorem rollbackStep_err_shape (project : String) (resources : List String)
    (r2 : Reservation) (us : List Usage) (e : DbErr)
    (h : rollbackStep project resources r2 us = .error e) :
    ∃ w, e = DbErr.lookupFailure w := by
  rw [rollbackStep] at h
  cases hl : usageLookup project resources us r2.usage_id <;> rw [hl] at h
  · injection h with h; exact ⟨r2.uuid, h.symm⟩
  · cases h

theorem rollbackStep_in_use_frame (project : String) (resources : List String)
    (r : Reservation) (us usNext : List Usage)
    (h : rollbackStep project resources r us = .ok usNext) :
    usNext.map (fun u => (u.id, u.in_use)) = us.map fun u => (u.id, u.in_use) := by
  rw [rollbackStep_ok project resources r us usNext h, List.map_map]
  apply List.map_congr_left
  intro u _
  simp only [Function.comp_apply]
  split
  · have hf := rollbackOne_fields u r.delta
    rw [hf.1, hf.2.2.2]
  · rfl

theorem expireStep_ok_cases (r : Reservation) (us usNext : List Usage)
    (h : expireStep r us = .ok usNext) :
    (0 ≤ r.delta ∧ usNext = us.map fun u =>
        if u.id == r.usage_id then rollbackOne u r.delta else u)
    ∨ (¬ 0 ≤ r.delta ∧ usNext = us) := by
  rw [expireStep] at h
  split at h
  · cases hl : us.find? (fun u => u.id == r.usage_id) <;> rw [hl] at h
    · cases h
    · injection h with h
      exact Or.inl ⟨by assumption, h.symm⟩
  · injection h with h
    exact Or.inr ⟨by assumption, h.symm⟩

theorem expireStep_in_use_frame (r : Reservation) (us usNext : List Usage)
    (h : expireStep r us = .ok usNext) :
    usNext.map (fun u => (u.id, u.in_use)) = us.map fun u => (u.id, u.in_use) := by
  rcases expireStep_ok_cases r us usNext h with ⟨_, rfl⟩ | ⟨_, rfl⟩
  · rw [List.map_map]
    apply List.map_congr_left
    intro u _
    simp only [Function.comp_apply]
    split
    · have hf := rollbackOne_fields u r.delta
      rw [hf.1, hf.2.2.2]
    · rfl
  · rfl

theorem exceptMap_ok (x : Except DbErr (List Usage × List Reservation)) (db2 : LedgerDB)
    (h : x.map (fun p => (⟨p.1, p.2⟩ : LedgerDB)) = .ok db2) :
    x = .ok (db2.usages, db2.reservations) := by
  cases x with
  | error e => cases h
  | ok p => injection h with h; rw [← h]

theorem selected_all_ne (ids : List Nat) (db : LedgerDB) (x : Reservation)
    (hx : x ∈ db.reservations) :
    ((selectReservations ids db).all fun s => x.uuid != s.uuid) = !ids.contains x.uuid := by
  cases hmem : ids.contains x.uuid with
  | true =>
    have hxin : x ∈ selectReservations ids db := List.mem_filter.mpr ⟨hx, hmem⟩
    simp only [Bool.not_true]
    refine Bool.eq_false_iff.mpr fun hall => ?_
    have hself := List.all_eq_true.mp hall x hxin
    simp at hself
  | false =>
    simp only [Bool.not_false]
    rw [List.all_eq_true]
    intro s hs
    have hs2 := List.mem_filter.mp hs
    rw [bne_iff_ne]
    intro heq
    rw [heq] at hmem
    rw [hs2.2] at hmem
    cases hmem

theorem reservationCommit_reservations (project : String) (ids : List Nat)
    (db db2 : LedgerDB) (h : reservationCommit project ids db = .ok db2) :
    db2.reservations = db.reservations.filter fun x => !ids.contains x.uuid := by
  rw [reservationCommit] at h
  have h2 := exceptMap_ok _ db2 h
  have h3 := ledgerGo_ok_live _ _ _ _ _ _ h2
  rw [h3]
  exact List.filter_congr fun x hx => selected_all_ne ids db x hx

theorem reservationRollback_reservations (project : String) (ids : List Nat)
    (db db2 : LedgerDB) (h : reservationRollback project ids db = .ok db2) :
    db2.reservations = db.reservations.filter fun x => !ids.contains x.uuid := by
  rw [reservationRollback] at h
  have h2 := exceptMap_ok _ db2 h
  have h3 := ledgerGo_ok_live _ _ _ _ _ _ h2
  rw [h3]
  exact List.filter_congr fun x hx => selected_all_ne ids db x hx

theorem reservationExpire_reservations (now : Int) (db db2 : LedgerDB)
    (huuid : (db.reservations.map (·.uuid)).Nodup)
    (h : reservationExpire now db = .ok db2) :
    db2.reservations = db.reservations.filter fun x => !(decide (x.expire < now)) := by
  rw [reservationExpire] at h
  have h2 := exceptMap_ok _ db2 h
  have h3 := ledgerGo_ok_live _ _ _ _ _ _ h2
  rw [h3]
  apply List.filter_congr
  intro x hx
  cases hexp : decide (x.expire < now) with
  | true =>
    have hxin : x ∈ db.reservations.filter fun r => decide (r.expire < now) :=
      List.mem_filter.mpr ⟨hx, hexp⟩
    simp only [Bool.not_true]
    refine Bool.eq_false_iff.mpr fun hall => ?_
    have hself := List.all_eq_true.mp hall x hxin
    simp at hself
  | false =>
    simp only [Bool.not_false]
    rw [List.all_eq_true]
    intro s hs
    have hs2 := List.mem_filter.mp hs
    rw [bne_iff_ne]
    intro heq
    have hxs : x = s := List.inj_on_of_nodup_map huuid hx hs2.1 heq
    rw [← hxs] at hs2
    rw [hs2.2] at hexp
    cases hexp

theorem reservationRollback_in_use (project : String) (ids : List Nat)
    (db db2 : LedgerDB) (h : reservationRollback project ids db = .ok db2) :
    db2.usages.map (fun u => (u.id, u.in_use)) = db.usages.map fun u => (u.id, u.in_use) := by
  rw [reservationRollback] at h
  have h2 := exceptMap_ok _ db2 h
  exact ledgerGo_ok_usages _ _
    (fun r us usNext hs => rollbackStep_in_use_frame _ _ r us usNext hs) _ _ _ _ _ h2

theorem reservationExpire_in_use (now : Int) (db db2 : LedgerDB)
    (h : reservationExpire now db = .ok db2) :
    db2.usages.map (fun u => (u.id, u.in_use)) = db.usages.map fun u => (u.id, u.in_use) := by
  rw [reservationExpire] at h
  have h2 := exceptMap_ok _ db2 h
  exact ledgerGo_ok_usages _ _
    (fun r us usNext hs => expireStep_in_use_frame r us usNext hs) _ _ _ _ _ h2

theorem retryOnDeadlock_no_retry {α : Type} (op : Nat → Except DbErr α) (w : Nat)
    (h : op 0 = .error (.lookupFailure w)) :
    retryOnDeadlock op 0 5 = .error (.lookupFailure w) := by
  rw [retryOnDeadlock, h]

/-- C3: for every reservation it processes, `reservation_commit`
decrements the usage row's `reserved` by `min(delta, reserved)` when
`delta >= 0`; when `delta` is negative it clamps the delta to
`max(delta, -in_use)` so that applying it never drives `in_use` below
zero; it then adds the (possibly clamped) delta to `in_use` and deletes
the reservation row. -/
theorem reservation_commit_min_release_and_clamp :
    (∀ (u : Usage) (d : Int), 0 ≤ d →
        commitOne u d =
          { u with reserved := u.reserved - min d u.reserved, in_use := u.in_use + d })
    ∧ (∀ (u : Usage) (d : Int), d < 0 →
        commitOne u d = { u with in_use := u.in_use + max d (-u.in_use) })
    ∧ (∀ (u : Usage) (d : Int), d < 0 → 0 ≤ u.in_use → 0 ≤ (commitOne u d).in_use)
    ∧ (∀ (project : String) (ids : List Nat) (db db2 : LedgerDB),
        reservationCommit project ids db = .ok db2 →
        db2.reservations = db.reservations.filter fun x => !ids.contains x.uuid) := by
  refine ⟨?_, ?_, ?_, ?_⟩
  · intro u d h
    rw [commitOne, if_pos h]
  · intro u d h
    rw [commitOne, if_neg (not_le.mpr h)]
    have harg : (if -d > u.in_use then -u.in_use else d) = max d (-u.in_use) := by
      split <;> omega
    rw [harg]
  · intro u d h h2
    rw [commitOne, if_neg (not_le.mpr h)]
    dsimp only
    split <;> omega
  · intro project ids db db2 h
    exact reservationCommit_reservations project ids db db2 h

/-- Witness for C3 at concrete inputs. -/
theorem reservation_commit_min_release_and_clamp_witness :
    ((0:Int) ≤ 3
      ∧ commitOne ⟨1, "p", "volumes", 4, 5, none, none⟩ 3
          = { (⟨1, "p", "volumes", 4, 5, none, none⟩ : Usage) with
              reserved := 5 - min 3 5, in_use := 4 + 3 })
    ∧ ((-9:Int) < 0
      ∧ commitOne ⟨1, "p", "volumes", 4, 5, none, none⟩ (-9)
          = { (⟨1, "p", "volumes", 4, 5, none, none⟩ : Usage) with
              in_use := 4 + max (-9) (-4) })
    ∧ 0 ≤ (commitOne ⟨1, "p", "volumes", 4, 5, none, none⟩ (-9)).in_use
    ∧ (⟨[⟨1, "p", "volumes", 3, 0, none, none⟩], []⟩ : LedgerDB).reservations
        = ([⟨5, 1, "p", "volumes", 3, 99⟩] : List Reservation).filter
            fun x => !([5] : List Nat).contains x.uuid :=
  ⟨⟨by decide, reservation_commit_min_release_and_clamp.1 _ 3 (by decide)⟩,
   ⟨by decide, reservation_commit_min_release_and_clamp.2.1 _ (-9) (by decide)⟩,
   reservation_commit_min_release_and_clamp.2.2.1 _ (-9) (by decide) (by decide),
   reservation_commit_min_release_and_clamp.2.2.2 "p" [5]
     ⟨[⟨1, "p", "volumes", 0, 3, none, none⟩], [⟨5, 1, "p", "volumes", 3, 99⟩]⟩
     ⟨[⟨1, "p", "volumes", 3, 0, none, none⟩], []⟩ rfl⟩

/-- C6: `reservation_rollback` and `reservation_expire` each decrement a
usage row's `reserved` by `min(delta, reserved)` only for reservations
with `delta >= 0` and then delete the reservation row; neither operation
ever modifies any usage row's `in_use`. -/
theorem rollback_and_expire_release_nonneg_only :
    (∀ (u : Usage) (d : Int), 0 ≤ d →
        rollbackOne u d = { u with reserved := u.reserved - min d u.reserved })
    ∧ (∀ (u : Usage) (d : Int), d < 0 → rollbackOne u d = u)
    ∧ (∀ (project : String) (ids : List Nat) (db db2 : LedgerDB),
        reservationRollback project ids db = .ok db2 →
          db2.usages.map (fun u => (u.id, u.in_use))
              = db.usages.map (fun u => (u.id, u.in_use))
          ∧ db2.reservations = db.reservations.filter fun x => !ids.contains x.uuid)
    ∧ (∀ (now : Int) (db db2 : LedgerDB), (db.reservations.map (·.uuid)).Nodup →
        reservationExpire now db = .ok db2 →
          db2.usages.map (fun u => (u.id, u.in_use))
              = db.usages.map (fun u => (u.id, u.in_use))
          ∧ db2.reservations = db.reservations.filter fun x => !(decide (x.expire < now))) := by
  refine ⟨?_, ?_, ?_, ?_⟩
  · intro u d h
    rw [rollbackOne, if_pos h]
  · intro u d h
    rw [rollbackOne, if_neg (not_le.mpr h)]
  · intro project ids db db2 h
    exact ⟨reservationRollback_in_use project ids db db2 h,
      reservationRollback_reservations project ids db db2 h⟩
  · intro now db db2 huuid h
    exact ⟨reservationExpire_in_use now db db2 h,
      reservationExpire_reservations now db db2 huuid h⟩

/-- Witness for C6 at concrete inputs. -/
theorem rollback_and_expire_release_nonneg_only_witness :
    ((0:Int) ≤ 2
      ∧ rollbackOne ⟨1, "p", "volumes", 4, 5, none, none⟩ 2
          = { (⟨1, "p", "volumes", 4, 5, none, none⟩ : Usage) with
              reserved := 5 - min 2 5 })
    ∧ rollbackOne ⟨1, "p", "volumes", 4, 5, none, none⟩ (-2)
        = ⟨1, "p", "volumes", 4, 5, none, none⟩
    ∧ ((⟨[⟨1, "p", "volumes", 0, 0, none, none⟩], []⟩ : LedgerDB).usages.map
            (fun u => (u.id, u.in_use))
          = ([⟨1, "p", "volumes", 0, 3, none, none⟩] : List Usage).map
              (fun u => (u.id, u.in_use))
        ∧ (⟨[⟨1, "p", "volumes", 0, 0, none, none⟩], []⟩ : LedgerDB).reservations
            = ([⟨5, 1, "p", "volumes", 3, 99⟩] : List Reservation).filter
                fun x => !([5] : List Nat).contains x.uuid)
    ∧ ((⟨[⟨1, "p", "volumes", 0, 0, none, none⟩], []⟩ : LedgerDB).usages.map
            (fun u => (u.id, u.in_use))
          = ([⟨1, "p", "volumes", 0, 3, none, none⟩] : List Usage).map
              (fun u => (u.id, u.in_use))
        ∧ (⟨[⟨1, "p", "volumes", 0, 0, none, none⟩], []⟩ : LedgerDB).reservations
            = ([⟨5, 1, "p", "volumes", 3, 99⟩] : List Reservation).filter
                fun x => !(decide (x.expire < (100:Int)))) :=
  ⟨⟨by decide, rollback_and_expire_release_nonneg_only.1 _ 2 (by decide)⟩,
   rollback_and_expire_release_nonneg_only.2.1 _ (-2) (by decide),
   rollback_and_expire_release_nonneg_only.2.2.1 "p" [5]
     ⟨[⟨1, "p", "volumes", 0, 3, none, none⟩], [⟨5, 1, "p", "volumes", 3, 99⟩]⟩
     ⟨[⟨1, "p", "volumes", 0, 0, none, none⟩], []⟩ rfl,
   rollback_and_expire_release_nonneg_only.2.2.2 100
     ⟨[⟨1, "p", "volumes", 0, 3, none, none⟩], [⟨5, 1, "p", "volumes", 3, 99⟩]⟩
     ⟨[⟨1, "p", "volumes", 0, 0, none, none⟩], []⟩ (by decide) rfl⟩

/-- C8: resolving a batch of reservation ids with `reservation_commit`
or `reservation_rollback` is idempotent per id: an id whose reservation
row has already been deleted is silently skipped with no state change
attributable to it, while every other id in the same batch is still
fully resolved — the run is identical to the run without that id. -/
theorem resolution_idempotent_per_missing_id (project : String) (ids1 ids2 : List Nat)
    (id0 : Nat) (db : LedgerDB) (h : ∀ r ∈ db.reservations, r.uuid ≠ id0) :
    reservationCommit project (ids1 ++ id0 :: ids2) db
        = reservationCommit project (ids1 ++ ids2) db
    ∧ reservationRollback project (ids1 ++ id0 :: ids2) db
        = reservationRollback project (ids1 ++ ids2) db := by
  have hsel : selectReservations (ids1 ++ id0 :: ids2) db
      = selectReservations (ids1 ++ ids2) db := by
    apply List.filter_congr
    intro r hr
    simp [List.mem_append, h r hr]
  exact ⟨by simp only [reservationCommit, hsel], by simp only [reservationRollback, hsel]⟩

/-- Witness for C8: id 77 names no live reservation; committing or
rolling back `[77, 5]` equals committing or rolling back `[5]`. -/
theorem resolution_idempotent_per_missing_id_witness :
    reservationCommit "p" ([] ++ 77 :: [5]) ⟨[⟨1, "p", "volumes", 0, 3, none, none⟩],
        [⟨5, 1, "p", "volumes", 3, 99⟩]⟩
      = reservationCommit "p" ([] ++ [5]) ⟨[⟨1, "p", "volumes", 0, 3, none, none⟩],
        [⟨5, 1, "p", "volumes", 3, 99⟩]⟩
    ∧ reservationRollback "p" ([] ++ 77 :: [5]) ⟨[⟨1, "p", "volumes", 0, 3, none, none⟩],
        [⟨5, 1, "p", "volumes", 3, 99⟩]⟩
      = reservationRollback "p" ([] ++ [5]) ⟨[⟨1, "p", "volumes", 0, 3, none, none⟩],
        [⟨5, 1, "p", "volumes", 3, 99⟩]⟩ :=
  resolution_idempotent_per_missing_id "p" [] [5] 77
    ⟨[⟨1, "p", "volumes", 0, 3, none, none⟩], [⟨5, 1, "p", "volumes", 3, 99⟩]⟩
    (by decide)

/-- C9: if `reservation_commit` or `reservation_rollback` processes an
existing reservation whose usage row is absent from the pre-fetched
usage map, the unguarded lookup failure aborts the operation (the
reservation is not silently skipped) and the deadlock-retry wrapper does
not retry it. -/
theorem missing_usage_row_fatal_unretried (project : String) (ids : List Nat)
    (db : LedgerDB) (r : Reservation) (hr : r ∈ db.reservations)
    (hid : ids.contains r.uuid = true)
    (hmiss : usageLookup project ((selectReservations ids db).map (·.resource)) db.usages
        r.usage_id = none) :
    (∃ w, reservationCommit project ids db = .error (.lookupFailure w)
        ∧ retryOnDeadlock (fun _ => reservationCommit project ids db) 0 5
            = .error (.lookupFailure w))
    ∧ (∃ w, reservationRollback project ids db = .error (.lookupFailure w)
        ∧ retryOnDeadlock (fun _ => reservationRollback project ids db) 0 5
            = .error (.lookupFailure w)) := by
  have hrsel : r ∈ selectReservations ids db := List.mem_filter.mpr ⟨hr, hid⟩
  constructor
  · obtain ⟨w, hw⟩ := ledgerGo_error_of_lookup
      (commitStep project ((selectReservations ids db).map (·.resource)))
      (fun us => usageLookup project ((selectReservations ids db).map (·.resource)) us
        r.usage_id = none)
      r
      (fun us hP => commitStep_err_of_none _ _ r us hP)
      (fun r2 us usNext hs hP => commitStep_pres_none _ _ _ r2 us usNext hs hP)
      (fun r2 us e he => commitStep_err_shape _ _ r2 us e he)
      (selectReservations ids db) db.usages db.reservations hrsel hmiss
    have hc : reservationCommit project ids db = .error (.lookupFailure w) := by
      rw [reservationCommit, hw]; rfl
    exact ⟨w, hc, retryOnDeadlock_no_retry _ w hc⟩
  · obtain ⟨w, hw⟩ := ledgerGo_error_of_lookup
      (rollbackStep project ((selectReservations ids db).map (·.resource)))
      (fun us => usageLookup project ((selectReservations ids db).map (·.resource)) us
        r.usage_id = none)
      r
      (fun us hP => rollbackStep_err_of_none _ _ r us hP)
      (fun r2 us usNext hs hP => rollbackStep_pres_none _ _ _ r2 us usNext hs hP)
      (fun r2 us e he => rollbackStep_err_shape _ _ r2 us e he)
      (selectReservations ids db) db.usages db.reservations hrsel hmiss
    have hc : reservationRollback project ids db = .error (.lookupFailure w) := by
      rw [reservationRollback, hw]; rfl
    exact ⟨w, hc, retryOnDeadlock_no_retry _ w hc⟩

theorem decrementUntil_reserved (u : Usage) : (decrementUntil u).reserved = u.reserved := by
  rw [decrementUntil]
  split
  · rfl
  · cases hu : u.until_refresh
    · rfl
    · rfl

theorem improveUntil_reserved (untilParam : Int) (u : Usage) :
    (improveUntil untilParam u).reserved = u.reserved := by
  rw [improveUntil]
  split <;> rfl

theorem refreshUsage_reserved (syncVal untilParam maxAge now : Int) (u : Usage) :
    (refreshUsage syncVal untilParam maxAge now u).reserved = u.reserved := by
  rw [refreshUsage]
  split
  · exact decrementUntil_reserved u
  · rw [improveUntil_reserved, decrementUntil_reserved]

theorem refreshAll_reserved (syncVals : String → Int) (untilParam maxAge now : Int) :
    ∀ (deltas : List (String × Int)) (us : String → Usage) (r : String),
      ((refreshAll syncVals untilParam maxAge now deltas us) r).reserved
        = (us r).reserved := by
  intro deltas
  induction deltas with
  | nil => intro us r; rfl
  | cons p rest ih =>
    intro us r
    show ((refreshAll syncVals untilParam maxAge now rest
        (updMap us p.1 (refreshUsage (syncVals p.1) untilParam maxAge now (us p.1)))) r).reserved
      = (us r).reserved
    rw [ih]
    simp only [updMap]
    split
    · next h => rw [h]; exact refreshUsage_reserved _ _ _ _ _
    · rfl

theorem updMap_bump_id (us : String → Usage) (k : String) (v : Usage)
    (hid : v.id = (us k).id) (x : String) : ((updMap us k v) x).id = (us x).id := by
  simp only [updMap]
  split
  · next h => rw [h, hid]
  · rfl

theorem createReservations_fst_congr (uuids : Nat → Nat) (project : String) (expire : Int) :
    ∀ (deltas : List (String × Int)) (i : Nat) (us vs : String → Usage),
      (∀ x, (us x).id = (vs x).id) →
      (createReservations uuids project expire deltas i us).1
        = (List.enumFrom i deltas).map fun q =>
            { uuid := uuids q.1, usage_id := (vs q.2.1).id, project_id := project,
              resource := q.2.1, delta := q.2.2, expire := expire } := by
  intro deltas
  induction deltas with
  | nil => intro i us vs hvs; rfl
  | cons p rest ih =>
    obtain ⟨k, d⟩ := p
    intro i us vs hvs
    rw [createReservations, List.enumFrom_cons]
    dsimp only
    rw [List.map_cons]
    congr 1
    · rw [hvs k]
    · apply ih
      intro x
      refine Eq.trans ?_ (hvs x)
      split
      · exact updMap_bump_id us k { us k with reserved := (us k).reserved + d } rfl x
      · rfl

theorem createReservations_snd_not_mem (uuids : Nat → Nat) (project : String)
    (expire : Int) :
    ∀ (deltas : List (String × Int)) (i : Nat) (us : String → Usage) (r : String),
      r ∉ deltas.map Prod.fst →
      (createReservations uuids project expire deltas i us).2 r = us r := by
  intro deltas
  induction deltas with
  | nil => intro i us r h; rfl
  | cons p rest ih =>
    obtain ⟨k, d⟩ := p
    intro i us r h
    rw [List.map_cons, List.mem_cons] at h
    push_neg at h
    rw [createReservations]
    dsimp only
    rw [ih (i + 1) _ r h.2]
    split
    · simp only [updMap]
      rw [if_neg h.1]
    · rfl

theorem createReservations_snd_mem (uuids : Nat → Nat) (project : String) (expire : Int) :
    ∀ (deltas : List (String × Int)) (i : Nat) (us : String → Usage) (r : String) (d : Int),
      (deltas.map Prod.fst).Nodup → (r, d) ∈ deltas →
      (createReservations uuids project expire deltas i us).2 r
        = if 0 < d then { us r with reserved := (us r).reserved + d } else us r := by
  intro deltas
  induction deltas with
  | nil => intro i us r d _ hmem; cases hmem
  | cons p rest ih =>
    obtain ⟨k, d2⟩ := p
    intro i us r d hnd hmem
    rw [List.map_cons, List.nodup_cons] at hnd
    rcases List.mem_cons.mp hmem with heq | hmem2
    · injection heq with h1 h2
      subst h1
      subst h2
      rw [createReservations]
      dsimp only
      rw [createReservations_snd_not_mem uuids project expire rest (i + 1) _ r hnd.1]
      by_cases hd : 0 < d
      · rw [if_pos hd, if_pos hd]
        simp [updMap]
      · rw [if_neg hd, if_neg hd]
    · have hrin : r ∈ rest.map Prod.fst := List.mem_map.mpr ⟨(r, d), hmem2, rfl⟩
      have hne : r ≠ k := fun he => hnd.1 (he ▸ hrin)
      rw [createReservations]
      dsimp only
      rw [ih (i + 1) _ r d hnd.2 hmem2]
      have husr :
          (if 0 < d2 then
            updMap us k { us k with reserved := (us k).reserved + d2 } else us) r = us r := by
        split
        · simp only [updMap]
          rw [if_neg hne]
        · rfl
      rw [husr]

theorem computeOvers_eq_nil_iff (quotas : String → Int) (deltas : List (String × Int))
    (us : String → Usage) :
    computeOvers quotas deltas us = []
      ↔ ∀ p ∈ deltas, ¬(0 ≤ quotas p.1 ∧ 0 ≤ p.2 ∧ quotas p.1 < p.2 + (us p.1).total) := by
  rw [computeOvers, List.map_eq_nil_iff, List.filter_eq_nil_iff]
  simp

theorem mem_computeOvers (quotas : String → Int) (deltas : List (String × Int))
    (us : String → Usage) (r : String) :
    r ∈ computeOvers quotas deltas us
      ↔ ∃ p ∈ deltas, p.1 = r ∧ 0 ≤ quotas p.1 ∧ 0 ≤ p.2
          ∧ quotas p.1 < p.2 + (us p.1).total := by
  rw [computeOvers]
  simp only [List.mem_map, List.mem_filter, decide_eq_true_eq]
  constructor
  · rintro ⟨p, ⟨hp, hcond⟩, hr⟩
    exact ⟨p, hp, hr, hcond⟩
  · rintro ⟨p, hp, hr, hcond⟩
    exact ⟨p, ⟨hp, hcond⟩, hr⟩

theorem quotaReserveBody_ok_case (uuids : Nat → Nat) (syncVals quotas : String → Int)
    (project : String) (deltas : List (String × Int)) (expire untilParam maxAge now : Int)
    (us0 : String → Usage)
    (hok : computeOvers quotas deltas
        (refreshAll syncVals untilParam maxAge now deltas us0) = []) :
    quotaReserveBody uuids syncVals quotas project deltas expire untilParam maxAge now us0
      = (.ok ((createReservations uuids project expire deltas 0
              (refreshAll syncVals untilParam maxAge now deltas us0)).1.map (·.uuid)),
         (createReservations uuids project expire deltas 0
              (refreshAll syncVals untilParam maxAge now deltas us0)).2,
         (createReservations uuids project expire deltas 0
              (refreshAll syncVals untilParam maxAge now deltas us0)).1) := by
  rw [quotaReserveBody, hok]
  rfl

theorem quotaReserveBody_error_case (uuids : Nat → Nat) (syncVals quotas : String → Int)
    (project : String) (deltas : List (String × Int)) (expire untilParam maxAge now : Int)
    (us0 : String → Usage)
    (hne : computeOvers quotas deltas
        (refreshAll syncVals untilParam maxAge now deltas us0) ≠ []) :
    quotaReserveBody uuids syncVals quotas project deltas expire untilParam maxAge now us0
      = (.error
          { overs := List.insertionSort (· ≤ ·)
              (computeOvers quotas deltas (refreshAll syncVals untilParam maxAge now deltas us0)),
            quotas := quotas,
            usages := fun r =>
              (((refreshAll syncVals untilParam maxAge now deltas us0) r).in_use,
               ((refreshAll syncVals untilParam maxAge now deltas us0) r).reserved) },
         refreshAll syncVals untilParam maxAge now deltas us0, []) := by
  rw [quotaReserveBody, if_neg fun hc => hne (List.isEmpty_iff.mp hc)]

/-- C5 counterexample: with `max_age = 10` configured, `updated_at` 100
seconds stale (so the third disjunct of the claim holds on its own), but
`until_refresh` set to 5, the code takes the `elif` branch, decrements
`until_refresh` to 4 and never evaluates the `max_age` test: no refresh
happens (`in_use` keeps its value 0 instead of the sync value 7; the
`until_refresh` parameter 9 leaves the decremented countdown in place). -/
theorem refresh_max_age_shadowed_by_until_refresh :
    ((10:Int) ≠ 0 ∧ (10:Int) ≤ (100:Int) - 0)
    ∧ needsRefresh 10 100 ⟨1, "p", "volumes", 0, 0, some 5, some 0⟩ = false
    ∧ (refreshUsage 7 9 10 100 ⟨1, "p", "volumes", 0, 0, some 5, some 0⟩).in_use = 0
    ∧ (refreshUsage 7 9 10 100 ⟨1, "p", "volumes", 0, 0, some 5, some 0⟩).until_refresh
        = some 4 := by
  decide

/-- C5 amended: the usage row is refreshed (in_use set from the sync
function, until_refresh reset) exactly when `in_use < 0`, or when
`until_refresh` is set and drops to zero or below after the decrement,
or when `until_refresh` is unset, `max_age` is configured, `updated_at`
is set and `now - updated_at >= max_age`; the `max_age` disjunct applies
only while `until_refresh` is unset. -/
theorem refresh_trigger_characterization (maxAge now : Int) (u : Usage) :
    (needsRefresh maxAge now u = true ↔
      u.in_use < 0
      ∨ (∃ n, u.until_refresh = some n ∧ n - 1 ≤ 0)
      ∨ (u.until_refresh = none ∧ maxAge ≠ 0
          ∧ ∃ t, u.updated_at = some t ∧ maxAge ≤ now - t))
    ∧ (needsRefresh maxAge now u = true → ∀ syncVal untilParam : Int,
        (refreshUsage syncVal untilParam maxAge now u).in_use = syncVal
        ∧ (refreshUsage syncVal untilParam maxAge now u).until_refresh
            = orNone untilParam) := by
  constructor
  · rcases lt_or_le u.in_use 0 with h0 | h0
    · simp [needsRefresh, h0]
    · have h02 := not_lt.mpr h0
      cases hu : u.until_refresh with
      | some n => simp [needsRefresh, hu, h02]
      | none =>
        cases ht : u.updated_at with
        | some t => simp [needsRefresh, hu, ht, h02]
        | none => simp [needsRefresh, hu, ht, h02]
  · intro h syncVal untilParam
    rw [refreshUsage]
    rw [if_pos h]
    exact ⟨rfl, rfl⟩

/-- Witness for C5 amended: a desynced row (`in_use = -1`) triggers a
refresh and gets the sync value and reset countdown. -/
theorem refresh_trigger_characterization_witness :
    (needsRefresh 0 0 ⟨1, "p", "volumes", -1, 0, some 5, none⟩ = true
      ↔ ((-1:Int) < 0
        ∨ (∃ n, (some 5 : Option Int) = some n ∧ n - 1 ≤ 0)
        ∨ ((some 5 : Option Int) = none ∧ (0:Int) ≠ 0
            ∧ ∃ t, (none : Option Int) = some t ∧ (0:Int) ≤ 0 - t)))
    ∧ ((refreshUsage 7 3 0 0 ⟨1, "p", "volumes", -1, 0, some 5, none⟩).in_use = 7
      ∧ (refreshUsage 7 3 0 0 ⟨1, "p", "volumes", -1, 0, some 5, none⟩).until_refresh
          = orNone 3) :=
  ⟨(refresh_trigger_characterization 0 0 ⟨1, "p", "volumes", -1, 0, some 5, none⟩).1,
   (refresh_trigger_characterization 0 0 ⟨1, "p", "volumes", -1, 0, some 5, none⟩).2
     (by decide) 7 3⟩

/-- Witness for C9: a live reservation whose usage row is gone. -/
theorem missing_usage_row_fatal_unretried_witness :
    (∃ w, reservationCommit "p" [5] ⟨[], [⟨5, 1, "p", "volumes", 3, 99⟩]⟩
        = .error (.lookupFailure w)
      ∧ retryOnDeadlock
          (fun _ => reservationCommit "p" [5] ⟨[], [⟨5, 1, "p", "volumes", 3, 99⟩]⟩) 0 5
          = .error (.lookupFailure w))
    ∧ (∃ w, reservationRollback "p" [5] ⟨[], [⟨5, 1, "p", "volumes", 3, 99⟩]⟩
        = .error (.lookupFailure w)
      ∧ retryOnDeadlock
          (fun _ => reservationRollback "p" [5] ⟨[], [⟨5, 1, "p", "volumes", 3, 99⟩]⟩) 0 5
          = .error (.lookupFailure w)) :=
  missing_usage_row_fatal_unretried "p" [5] ⟨[], [⟨5, 1, "p", "volumes", 3, 99⟩]⟩
    ⟨5, 1, "p", "volumes", 3, 99⟩ (by decide) (by decide) (by decide)

/-- C1: `quota_reserve` fails with the over-quota signal if and only if
some requested resource has a non-negative hard limit, a non-negative
delta and `hard_limit < delta + (in_use + reserved)` at decision time
(after the refresh step); a negative hard limit never produces an over,
and the signal carries the over resources sorted ascending, the quota
limits and a per-resource `{in_use, reserved}` snapshot. -/
theorem quota_reserve_over_quota_iff (uuids : Nat → Nat) (syncVals quotas : String → Int)
    (project : String) (deltas : List (String × Int)) (expire untilParam maxAge now : Int)
    (us0 us1 : String → Usage)
    (hus1 : us1 = refreshAll syncVals untilParam maxAge now deltas us0) :
    ((∃ e, (quotaReserveBody uuids syncVals quotas project deltas expire untilParam maxAge
          now us0).1 = .error e)
      ↔ ∃ p ∈ deltas, 0 ≤ quotas p.1 ∧ 0 ≤ p.2 ∧ quotas p.1 < p.2 + (us1 p.1).total)
    ∧ ∀ e, (quotaReserveBody uuids syncVals quotas project deltas expire untilParam maxAge
          now us0).1 = .error e →
        List.Sorted (· ≤ ·) e.overs
        ∧ (∀ r, r ∈ e.overs ↔ ∃ p ∈ deltas, p.1 = r ∧ 0 ≤ quotas p.1 ∧ 0 ≤ p.2
            ∧ quotas p.1 < p.2 + (us1 p.1).total)
        ∧ (∀ r ∈ e.overs, 0 ≤ quotas r)
        ∧ e.quotas = quotas
        ∧ e.usages = fun r => ((us1 r).in_use, (us1 r).reserved) := by
  subst hus1
  by_cases hO : computeOvers quotas deltas
      (refreshAll syncVals untilParam maxAge now deltas us0) = []
  · have hcase := quotaReserveBody_ok_case uuids syncVals quotas project deltas expire
      untilParam maxAge now us0 hO
    constructor
    · rw [hcase]
      constructor
      · rintro ⟨e, he⟩
        exact Except.noConfusion he
      · rintro ⟨p, hp, hcond⟩
        exact absurd hcond ((computeOvers_eq_nil_iff quotas deltas _).mp hO p hp)
    · intro e he
      rw [hcase] at he
      exact Except.noConfusion he
  · have hcase := quotaReserveBody_error_case uuids syncVals quotas project deltas expire
      untilParam maxAge now us0 hO
    constructor
    · constructor
      · intro _
        obtain ⟨x, hx⟩ := List.exists_mem_of_ne_nil _ hO
        obtain ⟨p, hp, _, hcond⟩ := (mem_computeOvers quotas deltas _ x).mp hx
        exact ⟨p, hp, hcond⟩
      · intro _
        rw [hcase]
        exact ⟨_, rfl⟩
    · intro e he
      rw [hcase] at he
      injection he with he2
      rw [← he2]
      refine ⟨List.sorted_insertionSort _ _, ?_, ?_, rfl, rfl⟩
      · intro r
        rw [List.mem_insertionSort, mem_computeOvers]
      · intro r hr
        rw [List.mem_insertionSort] at hr
        obtain ⟨p, _, hpr, hq, _⟩ := (mem_computeOvers quotas deltas _ r).mp hr
        exact hpr ▸ hq

/-- Witness for C1: quota 10, `in_use = 3`, delta 8 trips the check and
the signal carries the sorted over list and the limits. -/
theorem quota_reserve_over_quota_iff_witness :
    (∃ p ∈ [("volumes", (8:Int))], 0 ≤ (fun _ : String => (10:Int)) p.1 ∧ 0 ≤ p.2
        ∧ (fun _ : String => (10:Int)) p.1 < p.2
            + ((refreshAll (fun _ => 3) 0 0 50 [("volumes", 8)]
                (fun r => ⟨1, "p", r, 3, 0, none, none⟩)) p.1).total)
    ∧ ∃ e, (quotaReserveBody (fun n => n) (fun _ => 3) (fun _ => 10) "p" [("volumes", 8)]
          99 0 0 50 (fun r => ⟨1, "p", r, 3, 0, none, none⟩)).1 = .error e
        ∧ List.Sorted (· ≤ ·) e.overs
        ∧ "volumes" ∈ e.overs
        ∧ e.quotas = fun _ => 10 := by
  have h := quota_reserve_over_quota_iff (fun n => n) (fun _ => 3) (fun _ => 10) "p"
    [("volumes", 8)] 99 0 0 50 (fun r => ⟨1, "p", r, 3, 0, none, none⟩) _ rfl
  have hx : ∃ p ∈ [("volumes", (8:Int))], 0 ≤ (fun _ : String => (10:Int)) p.1 ∧ 0 ≤ p.2
      ∧ (fun _ : String => (10:Int)) p.1 < p.2
          + ((refreshAll (fun _ => 3) 0 0 50 [("volumes", 8)]
              (fun r => ⟨1, "p", r, 3, 0, none, none⟩)) p.1).total := by decide
  obtain ⟨e, he⟩ := h.1.mpr hx
  obtain ⟨hsort, hmem, _, hq, _⟩ := h.2 e he
  exact ⟨hx, e, he, hsort,
    (hmem "volumes").mpr ⟨("volumes", 8), by decide, rfl, by decide, by decide, by decide⟩, hq⟩

/-- C2: when `quota_reserve` finds no over-quota resource it creates
exactly one Reservation row per resource in `deltas` (fresh uuid, linked
usage id, the delta, the expiry), and adds the delta to that usage row's
`reserved` only when the delta is strictly positive; zero or negative
deltas never change `reserved`. -/
theorem quota_reserve_creates_reservations (uuids : Nat → Nat)
    (syncVals quotas : String → Int) (project : String) (deltas : List (String × Int))
    (expire untilParam maxAge now : Int) (us0 us1 : String → Usage)
    (hus1 : us1 = refreshAll syncVals untilParam maxAge now deltas us0)
    (hnodup : (deltas.map Prod.fst).Nodup)
    (hok : computeOvers quotas deltas us1 = []) :
    (quotaReserveBody uuids syncVals quotas project deltas expire untilParam maxAge
        now us0).2.2
      = (List.enumFrom 0 deltas).map (fun q =>
          { uuid := uuids q.1, usage_id := (us1 q.2.1).id, project_id := project,
            resource := q.2.1, delta := q.2.2, expire := expire })
    ∧ (quotaReserveBody uuids syncVals quotas project deltas expire untilParam maxAge
          now us0).1
        = .ok ((quotaReserveBody uuids syncVals quotas project deltas expire untilParam
            maxAge now us0).2.2.map (·.uuid))
    ∧ (∀ r d, (r, d) ∈ deltas →
        ((quotaReserveBody uuids syncVals quotas project deltas expire untilParam maxAge
            now us0).2.1 r).reserved
          = (us1 r).reserved + (if 0 < d then d else 0)
        ∧ ((quotaReserveBody uuids syncVals quotas project deltas expire untilParam maxAge
            now us0).2.1 r).in_use = (us1 r).in_use)
    ∧ (∀ r, r ∉ deltas.map Prod.fst →
        (quotaReserveBody uuids syncVals quotas project deltas expire untilParam maxAge
            now us0).2.1 r = us1 r)
    ∧ (Function.Injective uuids →
        ((quotaReserveBody uuids syncVals quotas project deltas expire untilParam maxAge
            now us0).2.2.map (·.uuid)).Nodup) := by
  subst hus1
  have hcase := quotaReserveBody_ok_case uuids syncVals quotas project deltas expire
    untilParam maxAge now us0 hok
  have hfst := createReservations_fst_congr uuids project expire deltas 0
    (refreshAll syncVals untilParam maxAge now deltas us0)
    (refreshAll syncVals untilParam maxAge now deltas us0) (fun _ => rfl)
  refine ⟨?_, ?_, ?_, ?_, ?_⟩
  · rw [hcase]
    exact hfst
  · rw [hcase]
  · intro r d hmem
    rw [hcase]
    have hsnd := createReservations_snd_mem uuids project expire deltas 0
      (refreshAll syncVals untilParam maxAge now deltas us0) r d hnodup hmem
    dsimp only
    rw [hsnd]
    constructor
    · split <;> simp
    · split <;> rfl
  · intro r hr
    rw [hcase]
    exact createReservations_snd_not_mem uuids project expire deltas 0 _ r hr
  · intro hinj
    rw [hcase]
    dsimp only
    rw [hfst, List.map_map]
    have hcomp :
        ((fun x : Reservation => x.uuid) ∘ fun q : Nat × String × Int =>
          ({ uuid := uuids q.1,
             usage_id := ((refreshAll syncVals untilParam maxAge now deltas us0) q.2.1).id,
             project_id := project, resource := q.2.1, delta := q.2.2,
             expire := expire } : Reservation))
          = uuids ∘ Prod.fst := rfl
    rw [hcomp, ← List.map_map, List.enumFrom_map_fst]
    exact (List.nodup_range' 0 deltas.length).map hinj

/-- Witness for C2: reserving 7 volumes at `in_use = 3`, quota 10. -/
theorem quota_reserve_creates_reservations_witness :
    (quotaReserveBody (fun n => n) (fun _ => 3) (fun _ => 10) "p" [("volumes", 7)]
        99 0 0 50 (fun r => ⟨1, "p", r, 3, 0, none, none⟩)).2.2
      = (List.enumFrom 0 [("volumes", (7:Int))]).map (fun q =>
          { uuid := q.1,
            usage_id := ((refreshAll (fun _ => 3) 0 0 50 [("volumes", 7)]
                (fun r => ⟨1, "p", r, 3, 0, none, none⟩)) q.2.1).id,
            project_id := "p", resource := q.2.1, delta := q.2.2, expire := 99 })
    ∧ (∀ r d, (r, d) ∈ [("volumes", (7:Int))] →
        ((quotaReserveBody (fun n => n) (fun _ => 3) (fun _ => 10) "p" [("volumes", 7)]
            99 0 0 50 (fun r => ⟨1, "p", r, 3, 0, none, none⟩)).2.1 r).reserved
          = ((refreshAll (fun _ => 3) 0 0 50 [("volumes", 7)]
              (fun r => ⟨1, "p", r, 3, 0, none, none⟩)) r).reserved
            + (if 0 < d then d else 0)
        ∧ ((quotaReserveBody (fun n => n) (fun _ => 3) (fun _ => 10) "p" [("volumes", 7)]
            99 0 0 50 (fun r => ⟨1, "p", r, 3, 0, none, none⟩)).2.1 r).in_use
          = ((refreshAll (fun _ => 3) 0 0 50 [("volumes", 7)]
              (fun r => ⟨1, "p", r, 3, 0, none, none⟩)) r).in_use)
    ∧ ((quotaReserveBody (fun n => n) (fun _ => 3) (fun _ => 10) "p" [("volumes", 7)]
        99 0 0 50 (fun r => ⟨1, "p", r, 3, 0, none, none⟩)).2.2.map (·.uuid)).Nodup := by
  have h := quota_reserve_creates_reservations (fun n => n) (fun _ => 3) (fun _ => 10) "p"
    [("volumes", 7)] 99 0 0 50 (fun r => ⟨1, "p", r, 3, 0, none, none⟩) _ rfl
    (by decide) (by decide)
  exact ⟨h.1, h.2.2.1, h.2.2.2.2 fun a b hab => hab⟩

/-- C4: when `quota_reserve` fails over-quota, no Reservation row is
created and no usage row's `reserved` changes, while the refresh step's
`in_use` and `until_refresh` updates persist (the returned usage state
is exactly the refreshed one). -/
theorem quota_reserve_overquota_frame (uuids : Nat → Nat) (syncVals quotas : String → Int)
    (project : String) (deltas : List (String × Int)) (expire untilParam maxAge now : Int)
    (us0 us1 : String → Usage)
    (hus1 : us1 = refreshAll syncVals untilParam maxAge now deltas us0) :
    ∀ e, (quotaReserveBody uuids syncVals quotas project deltas expire untilParam maxAge
        now us0).1 = .error e →
      (quotaReserveBody uuids syncVals quotas project deltas expire untilParam maxAge
          now us0).2.2 = []
      ∧ (quotaReserveBody uuids syncVals quotas project deltas expire untilParam maxAge
          now us0).2.1 = us1
      ∧ ∀ r, ((quotaReserveBody uuids syncVals quotas project deltas expire untilParam
          maxAge now us0).2.1 r).reserved = (us0 r).reserved := by
  subst hus1
  intro e he
  by_cases hO : computeOvers quotas deltas
      (refreshAll syncVals untilParam maxAge now deltas us0) = []
  · rw [quotaReserveBody_ok_case uuids syncVals quotas project deltas expire untilParam
      maxAge now us0 hO] at he
    exact Except.noConfusion he
  · have hcase := quotaReserveBody_error_case uuids syncVals quotas project deltas expire
      untilParam maxAge now us0 hO
    rw [hcase]
    exact ⟨rfl, rfl, fun r => refreshAll_reserved syncVals untilParam maxAge now deltas us0 r⟩

/-- Witness for C4: the failing 8-volume reserve leaves `reserved`
untouched and returns the refreshed usage map. -/
theorem quota_reserve_overquota_frame_witness :
    ∃ e, (quotaReserveBody (fun n => n) (fun _ => 3) (fun _ => 10) "p" [("volumes", 8)]
        99 0 0 50 (fun r => ⟨1, "p", r, 3, 0, none, none⟩)).1 = .error e
      ∧ ((quotaReserveBody (fun n => n) (fun _ => 3) (fun _ => 10) "p" [("volumes", 8)]
          99 0 0 50 (fun r => ⟨1, "p", r, 3, 0, none, none⟩)).2.2 = []
        ∧ (quotaReserveBody (fun n => n) (fun _ => 3) (fun _ => 10) "p" [("volumes", 8)]
            99 0 0 50 (fun r => ⟨1, "p", r, 3, 0, none, none⟩)).2.1
          = refreshAll (fun _ => 3) 0 0 50 [("volumes", 8)]
              (fun r => ⟨1, "p", r, 3, 0, none, none⟩)
        ∧ ∀ r, ((quotaReserveBody (fun n => n) (fun _ => 3) (fun _ => 10) "p"
            [("volumes", 8)] 99 0 0 50
            (fun r => ⟨1, "p", r, 3, 0, none, none⟩)).2.1 r).reserved
          = ((fun r => (⟨1, "p", r, 3, 0, none, none⟩ : Usage)) r).reserved) := by
  refine ⟨_, rfl, quota_reserve_overquota_frame (fun n => n) (fun _ => 3) (fun _ => 10) "p"
    [("volumes", 8)] 99 0 0 50 (fun r => ⟨1, "p", r, 3, 0, none, none⟩) _ rfl _ rfl⟩

theorem replaceInOrder_map_fst (k : String) (v : UpdValue) :
    ∀ ord : List (String × Option UpdValue),
      (replaceInOrder k v ord).map Prod.fst = ord.map Prod.fst := by
  intro ord
  induction ord with
  | nil => rfl
  | cons p t ih =>
    obtain ⟨k2, w⟩ := p
    rw [replaceInOrder]
    split
    · rfl
    · rw [List.map_cons, List.map_cons, ih]

theorem orderContains_replaceInOrder_ne (k k2 : String) (v : UpdValue) (hne : k2 ≠ k) :
    ∀ ord, orderContains k2 (replaceInOrder k v ord) = orderContains k2 ord := by
  intro ord
  induction ord with
  | nil => rfl
  | cons p t ih =>
    obtain ⟨k3, w⟩ := p
    rw [replaceInOrder]
    split
    · next h =>
      rw [orderContains, orderContains, List.any_cons, List.any_cons]
      have h1 : decide (((k3, some v) : String × Option UpdValue).1 = k2
          ∧ ((k3, some v) : String × Option UpdValue).2 = none) = false := by
        rw [decide_eq_false_iff_not]
        rintro ⟨-, hb⟩
        exact Option.noConfusion hb
      have h2 : decide (((k3, w) : String × Option UpdValue).1 = k2
          ∧ ((k3, w) : String × Option UpdValue).2 = none) = false := by
        rw [decide_eq_false_iff_not]
        rintro ⟨ha, -⟩
        exact hne (by rw [← ha]; exact h.1)
      rw [h1, h2]
    · next h =>
      rw [orderContains, orderContains, List.any_cons, List.any_cons]
      rw [orderContains, orderContains] at ih
      rw [ih]

theorem replaceInOrder_map_find (k : String) (v : UpdValue)
    (rest : List (String × UpdValue)) :
    ∀ ord : List (String × Option UpdValue), (ord.map Prod.fst).Nodup →
      orderContains k ord = true →
      (replaceInOrder k v ord).map (fun p =>
          if p.2 = none then (p.1, (rest.find? fun q => q.1 == p.1).map Prod.snd) else p)
        = ord.map fun p =>
            if p.2 = none then
              (p.1, (((k, v) :: rest).find? fun q => q.1 == p.1).map Prod.snd)
            else p := by
  intro ord
  induction ord with
  | nil => intro _ hC; cases hC
  | cons p t ih =>
    obtain ⟨k2, w⟩ := p
    intro hnd hC
    rw [List.map_cons, List.nodup_cons] at hnd
    rw [replaceInOrder]
    split
    · next h =>
      rw [List.map_cons, List.map_cons]
      congr 1
      · rw [if_neg (fun hh => Option.noConfusion hh), if_pos h.2]
        rw [List.find?_cons_of_pos _ (by rw [beq_iff_eq]; exact h.1.symm)]
        rfl
      · apply List.map_congr_left
        intro q hq
        by_cases h2 : q.2 = none
        · rw [if_pos h2, if_pos h2]
          have hmem : q.1 ∈ t.map Prod.fst := List.mem_map.mpr ⟨q, hq, rfl⟩
          have hne2 : ¬(((k, v) : String × UpdValue).1 == q.1) = true := by
            rw [beq_iff_eq]
            intro he
            exact hnd.1 (by rw [h.1, he]; exact hmem)
          rw [@List.find?_cons_of_neg _ (fun q2 => q2.1 == q.1) (k, v) rest hne2]
        · rw [if_neg h2, if_neg h2]
    · next h =>
      rw [List.map_cons, List.map_cons]
      congr 1
      · by_cases h2 : w = none
        · rw [if_pos h2, if_pos h2]
          have hk2 : k2 ≠ k := fun he => h ⟨he, h2⟩
          have hneg : ¬(((k, v) : String × UpdValue).1 == k2) = true := by
            rw [beq_iff_eq]
            intro he
            exact hk2 he.symm
          rw [@List.find?_cons_of_neg _ (fun q => q.1 == (k2, w).1) (k, v) rest hneg]
        · rw [if_neg h2, if_neg h2]
      · apply ih hnd.2
        rw [orderContains, List.any_cons] at hC
        have hhead : decide (((k2, w) : String × Option UpdValue).1 = k
            ∧ ((k2, w) : String × Option UpdValue).2 = none) = false := by
          rw [decide_eq_false_iff_not]
          exact h
        rw [hhead, Bool.false_or] at hC
        rw [orderContains]
        exact hC

theorem ord_map_skip_head (k : String) (v : UpdValue) (rest : List (String × UpdValue))
    (ord : List (String × Option UpdValue)) (hC : orderContains k ord = false) :
    (ord.map fun p =>
        if p.2 = none then (p.1, (((k, v) :: rest).find? fun q => q.1 == p.1).map Prod.snd)
        else p)
      = ord.map fun p =>
          if p.2 = none then (p.1, (rest.find? fun q => q.1 == p.1).map Prod.snd) else p := by
  apply List.map_congr_left
  intro p hp
  by_cases h2 : p.2 = none
  · rw [if_pos h2, if_pos h2]
    have hne : ¬(((k, v) : String × UpdValue).1 == p.1) = true := by
      rw [beq_iff_eq]
      intro he
      have hcon : orderContains k ord = true := by
        rw [orderContains, List.any_eq_true]
        exact ⟨p, hp, by rw [decide_eq_true_eq]; exact ⟨he.symm, h2⟩⟩
      rw [hcon] at hC
      cases hC
    rw [@List.find?_cons_of_neg _ (fun q => q.1 == p.1) (k, v) rest hne]
  · rw [if_neg h2, if_neg h2]

theorem splitValues_spec :
    ∀ (values : List (String × UpdValue)) (ord : List (String × Option UpdValue)),
      (values.map Prod.fst).Nodup → (ord.map Prod.fst).Nodup →
      splitValues ord values
        = (ord.map fun p =>
            if p.2 = none then (p.1, (values.find? fun q => q.1 == p.1).map Prod.snd) else p,
           values.filter fun p => !orderContains p.1 ord && p.2.isOrmField,
           values.filter fun p => !orderContains p.1 ord && p.2.isCase,
           values.filter fun p => !orderContains p.1 ord && !p.2.isCase && !p.2.isOrmField) := by
  intro values
  induction values with
  | nil =>
    intro ord hA hB
    clear hA hB
    rw [splitValues]
    have h1 : ord.map (fun p =>
        if p.2 = none then
          (p.1, (List.find? (fun q => q.1 == p.1) ([] : List (String × UpdValue))).map Prod.snd)
        else p) = ord := by
      induction ord with
      | nil => rfl
      | cons p t iht =>
        rw [List.map_cons, iht]
        congr 1
        by_cases h2 : p.2 = none
        · rw [if_pos h2]
          exact Prod.ext rfl h2.symm
        · rw [if_neg h2]
    rw [h1]
    rfl
  | cons kv rest ih =>
    obtain ⟨k, v⟩ := kv
    intro ord hnv hno
    rw [List.map_cons, List.nodup_cons] at hnv
    rw [splitValues]
    by_cases hC : orderContains k ord = true
    · rw [if_pos hC]
      rw [ih (replaceInOrder k v ord) hnv.2 (by rw [replaceInOrder_map_fst]; exact hno)]
      have hfst : ∀ q ∈ rest, q.1 ≠ k := by
        intro q hq he
        exact hnv.1 (List.mem_map.mpr ⟨q, hq, he⟩)
      refine Prod.ext ?_ (Prod.ext ?_ (Prod.ext ?_ ?_))
      · dsimp only
        exact replaceInOrder_map_find k v rest ord hno hC
      · dsimp only
        rw [List.filter_cons, if_neg (by simp [hC])]
        apply List.filter_congr
        intro q hq
        rw [orderContains_replaceInOrder_ne k q.1 v (hfst q hq)]
      · dsimp only
        rw [List.filter_cons, if_neg (by simp [hC])]
        apply List.filter_congr
        intro q hq
        rw [orderContains_replaceInOrder_ne k q.1 v (hfst q hq)]
      · dsimp only
        rw [List.filter_cons, if_neg (by simp [hC])]
        apply List.filter_congr
        intro q hq
        rw [orderContains_replaceInOrder_ne k q.1 v (hfst q hq)]
    · rw [if_neg hC]
      have hCf : orderContains k ord = false := Bool.eq_false_iff.mpr hC
      rw [ih ord hnv.2 hno]
      have hord := ord_map_skip_head k v rest ord hCf
      cases v with
      | lit s =>
        rw [if_neg (show ¬((UpdValue.lit s).isCase = true) from fun h => Bool.noConfusion h)]
        rw [if_neg (show ¬((UpdValue.lit s).isOrmField = true) from fun h => Bool.noConfusion h)]
        have hfl : ¬((!orderContains (k, UpdValue.lit s).1 ord
            && (k, UpdValue.lit s).2.isOrmField) = true) := by
          show ¬((!orderContains k ord && (UpdValue.lit s).isOrmField) = true)
          rw [hCf]
          exact fun h => Bool.noConfusion h
        have hcl : ¬((!orderContains (k, UpdValue.lit s).1 ord
            && (k, UpdValue.lit s).2.isCase) = true) := by
          show ¬((!orderContains k ord && (UpdValue.lit s).isCase) = true)
          rw [hCf]
          exact fun h => Bool.noConfusion h
        have hul : (!orderContains (k, UpdValue.lit s).1 ord
            && !(k, UpdValue.lit s).2.isCase && !(k, UpdValue.lit s).2.isOrmField) = true := by
          show (!orderContains k ord
            && !(UpdValue.lit s).isCase && !(UpdValue.lit s).isOrmField) = true
          rw [hCf]
          rfl
        refine Prod.ext ?_ (Prod.ext ?_ (Prod.ext ?_ ?_))
        · dsimp only
          exact hord.symm
        · dsimp only
          rw [List.filter_cons, if_neg hfl]
        · dsimp only
          rw [List.filter_cons, if_neg hcl]
        · dsimp only
          rw [List.filter_cons, if_pos hul]
      | fieldRef f =>
        rw [if_neg (show ¬((UpdValue.fieldRef f).isCase = true) from fun h => Bool.noConfusion h)]
        rw [if_pos (show (UpdValue.fieldRef f).isOrmField = true from rfl)]
        have hfl : (!orderContains (k, UpdValue.fieldRef f).1 ord
            && (k, UpdValue.fieldRef f).2.isOrmField) = true := by
          show (!orderContains k ord && (UpdValue.fieldRef f).isOrmField) = true
          rw [hCf]
          rfl
        have hcl : ¬((!orderContains (k, UpdValue.fieldRef f).1 ord
            && (k, UpdValue.fieldRef f).2.isCase) = true) := by
          show ¬((!orderContains k ord && (UpdValue.fieldRef f).isCase) = true)
          rw [hCf]
          exact fun h => Bool.noConfusion h
        have hul : ¬((!orderContains (k, UpdValue.fieldRef f).1 ord
            && !(k, UpdValue.fieldRef f).2.isCase
            && !(k, UpdValue.fieldRef f).2.isOrmField) = true) := by
          show ¬((!orderContains k ord
            && !(UpdValue.fieldRef f).isCase && !(UpdValue.fieldRef f).isOrmField) = true)
          rw [hCf]
          exact fun h => Bool.noConfusion h
        refine Prod.ext ?_ (Prod.ext ?_ (Prod.ext ?_ ?_))
        · dsimp only
          exact hord.symm
        · dsimp only
          rw [List.filter_cons, if_pos hfl]
        · dsimp only
          rw [List.filter_cons, if_neg hcl]
        · dsimp only
          rw [List.filter_cons, if_neg hul]
      | caseWhen f whens els =>
        rw [if_pos (show (UpdValue.caseWhen f whens els).isCase = true from rfl)]
        have hfl : ¬((!orderContains (k, UpdValue.caseWhen f whens els).1 ord
            && (k, UpdValue.caseWhen f whens els).2.isOrmField) = true) := by
          show ¬((!orderContains k ord
            && (UpdValue.caseWhen f whens els).isOrmField) = true)
          rw [hCf]
          exact fun h => Bool.noConfusion h
        have hcl : (!orderContains (k, UpdValue.caseWhen f whens els).1 ord
            && (k, UpdValue.caseWhen f whens els).2.isCase) = true := by
          show (!orderContains k ord && (UpdValue.caseWhen f whens els).isCase) = true
          rw [hCf]
          rfl
        have hul : ¬((!orderContains (k, UpdValue.caseWhen f whens els).1 ord
            && !(k, UpdValue.caseWhen f whens els).2.isCase
            && !(k, UpdValue.caseWhen f whens els).2.isOrmField) = true) := by
          show ¬((!orderContains k ord
            && !(UpdValue.caseWhen f whens els).isCase
            && !(UpdValue.caseWhen f whens els).isOrmField) = true)
          rw [hCf]
          exact fun h => Bool.noConfusion h
        refine Prod.ext ?_ (Prod.ext ?_ (Prod.ext ?_ ?_))
        · dsimp only
          exact hord.symm
        · dsimp only
          rw [List.filter_cons, if_neg hfl]
        · dsimp only
          rw [List.filter_cons, if_pos hcl]
        · dsimp only
          rw [List.filter_cons, if_neg hul]

theorem orderContains_init (k : String) (order : List String) :
    orderContains k (order.map fun x => (x, (none : Option UpdValue))) = order.contains k := by
  rw [Bool.eq_iff_iff]
  rw [orderContains, List.any_eq_true]
  simp

theorem filterMap_find_pairs (values : List (String × UpdValue)) :
    ∀ order : List String,
      ((order.map fun k => (k, (none : Option UpdValue))).map fun p =>
          if p.2 = none then (p.1, (values.find? fun q => q.1 == p.1).map Prod.snd)
          else p).filterMap (fun p => p.2.map fun v => (p.1, v))
        = order.filterMap fun k => values.find? fun q => q.1 == k := by
  intro order
  rw [List.filterMap_map, List.filterMap_map]
  apply List.filterMap_congr
  intro a _
  show ((values.find? fun q => q.1 == a).map Prod.snd).map (fun v => (a, v))
    = values.find? fun q => q.1 == a
  cases hopt : values.find? fun q => q.1 == a with
  | none => rfl
  | some qv =>
    have hq : qv.1 = a := by
      have hpred := List.find?_some hopt
      rwa [beq_iff_eq] at hpred
    show some (a, qv.2) = some qv
    exact congrArg some (Prod.ext hq.symm rfl)

/-- C7: the conditional-update primitive applies new-value fields in
this order: fields named in the caller's explicit order list first (in
that order), then fields whose new value references another field, then
case expressions, then plain literals; consequently an update with
expected `status = available` setting `status = retyping` and
`previous_status = status` yields `previous_status = available` and
`status = retyping` under both a sequential-assignment engine and a
snapshot engine. -/
theorem conditional_update_field_order (order : List String)
    (values : List (String × UpdValue))
    (hnv : (values.map Prod.fst).Nodup) (hno : order.Nodup) :
    conditionalUpdateOrder order values
      = (order.filterMap fun k => values.find? fun q => q.1 == k)
        ++ (values.filter fun p => !order.contains p.1 && p.2.isOrmField)
        ++ (values.filter fun p => !order.contains p.1 && p.2.isCase)
        ++ (values.filter fun p => !order.contains p.1 && !p.2.isCase && !p.2.isOrmField)
    ∧ (∀ row : String → String, row "status" = "available" →
        applyUpdatesSeq row (conditionalUpdateOrder []
            [("status", .lit "retyping"), ("previous_status", .fieldRef "status")]) "status"
          = "retyping"
        ∧ applyUpdatesSeq row (conditionalUpdateOrder []
            [("status", .lit "retyping"), ("previous_status", .fieldRef "status")])
            "previous_status" = "available"
        ∧ applyUpdatesSnapshot row (conditionalUpdateOrder []
            [("status", .lit "retyping"), ("previous_status", .fieldRef "status")]) "status"
          = "retyping"
        ∧ applyUpdatesSnapshot row (conditionalUpdateOrder []
            [("status", .lit "retyping"), ("previous_status", .fieldRef "status")])
            "previous_status" = "available") := by
  constructor
  · rw [conditionalUpdateOrder]
    have hno2 : ((order.map fun k => (k, (none : Option UpdValue))).map Prod.fst).Nodup := by
      have hcomp : (order.map fun k => (k, (none : Option UpdValue))).map Prod.fst = order := by
        rw [List.map_map]
        exact List.map_id' order
      rw [hcomp]
      exact hno
    rw [splitValues_spec values (order.map fun k => (k, (none : Option UpdValue))) hnv hno2]
    dsimp only
    rw [filterMap_find_pairs]
    have hbkt : ∀ cls : String × UpdValue → Bool,
        (values.filter fun p =>
            !orderContains p.1 (order.map fun k => (k, (none : Option UpdValue))) && cls p)
          = values.filter fun p => !order.contains p.1 && cls p := by
      intro cls
      apply List.filter_congr
      intro q _
      rw [orderContains_init]
    have hb3 : (values.filter fun p =>
        !orderContains p.1 (order.map fun k => (k, (none : Option UpdValue)))
          && !p.2.isCase && !p.2.isOrmField)
      = values.filter fun p => !order.contains p.1 && !p.2.isCase && !p.2.isOrmField := by
      apply List.filter_congr
      intro q _
      rw [orderContains_init]
    rw [hbkt fun p => p.2.isOrmField, hbkt fun p => p.2.isCase, hb3]
  · intro row hrow
    refine ⟨rfl, ?_, rfl, ?_⟩
    · show row "status" = "available"
      exact hrow
    · show row "status" = "available"
      exact hrow

/-- Witness for C7 at a concrete order list, values and row. -/
theorem conditional_update_field_order_witness :
    conditionalUpdateOrder ["a"] [("b", .fieldRef "a"), ("a", .lit "x"), ("c", .lit "y")]
      = [("a", .lit "x"), ("b", .fieldRef "a"), ("c", .lit "y")]
    ∧ applyUpdatesSeq (fun f => if f = "status" then "available" else "z")
        (conditionalUpdateOrder []
          [("status", .lit "retyping"), ("previous_status", .fieldRef "status")])
        "previous_status" = "available"
    ∧ applyUpdatesSnapshot (fun f => if f = "status" then "available" else "z")
        (conditionalUpdateOrder []
          [("status", .lit "retyping"), ("previous_status", .fieldRef "status")])
        "previous_status" = "available" := by
  have h := conditional_update_field_order ["a"]
    [("b", .fieldRef "a"), ("a", .lit "x"), ("c", .lit "y")] (by decide) (by decide)
  have h2 := conditional_update_field_order []
    [("status", .lit "retyping"), ("previous_status", .fieldRef "status")]
    (by decide) (by decide)
  have h3 := h2.2 (fun f => if f = "status" then "available" else "z") (by decide)
  exact ⟨h.1.trans (by decide), h3.2.1, h3.2.2.2⟩

theorem usageFirst_append_general {α β : Type} (f : α → Nat) (g : β → Nat)
    (A : List α) (B : List β) :
    usageFirst ((A.map fun a => LockEv.usage (f a)) ++ B.map fun b => LockEv.resLock (g b))
      = true := by
  induction A with
  | nil =>
    cases B with
    | nil => rfl
    | cons b bs =>
      show (bs.map fun x => LockEv.resLock (g x)).all (fun e => !e.isUsage) = true
      rw [List.all_eq_true]
      intro e he
      obtain ⟨r, -, rfl⟩ := List.mem_map.mp he
      rfl
  | cons a A ihA => exact ihA

theorem usageIds_append_general {α β : Type} (f : α → Nat) (g : β → Nat)
    (A : List α) (B : List β) :
    usageIds ((A.map fun a => LockEv.usage (f a)) ++ B.map fun b => LockEv.resLock (g b))
      = A.map f := by
  induction A with
  | nil =>
    induction B with
    | nil => rfl
    | cons b bs ihB => exact ihB
  | cons a A ihA => exact congrArg (List.cons (f a)) ihA

/-- C10 counterexample: the expire sweep locks the expired Reservation
row first (`with_for_update` on the Reservation query) and only then
writes — and hence locks — the usage row it touches, so its lock trace
has a Reservation lock before a QuotaUsage lock. -/
theorem expire_locks_reservation_row_first :
    expireLockTrace 5
        ⟨[⟨10, "p", "volumes", 0, 5, none, none⟩], [⟨1, 10, "p", "volumes", 3, 0⟩]⟩
      = [.resLock 1, .usage 10]
    ∧ ¬ lockOrderOK (expireLockTrace 5
        ⟨[⟨10, "p", "volumes", 0, 5, none, none⟩], [⟨1, 10, "p", "volumes", 3, 0⟩]⟩) :=
  ⟨by decide, fun h => absurd h.1 (by decide)⟩

/-- C10 amended: `quota_reserve`, `reservation_commit` and
`reservation_rollback` lock QuotaUsage rows first, in ascending id
order, and only then Reservation rows; `reservation_expire` is the
exception — it locks the expired Reservation rows first and writes their
usage rows afterwards (the reverse order, as the race-condition NOTE at
the top of `reservation_commit` acknowledges). -/
theorem lock_order_usage_first_except_expire :
    (∀ (project : String) (ids : List Nat) (db : LedgerDB),
        lockOrderOK (commitLockTrace project ids db)
        ∧ lockOrderOK (rollbackLockTrace project ids db))
    ∧ (∀ (project : String) (deltaKeys : List String) (db : LedgerDB),
        lockOrderOK (reserveLockTrace project deltaKeys db))
    ∧ (∀ (now : Int) (db : LedgerDB),
        usageFirst ((expireLockTrace now db).reverse) = true) := by
  have husage : ∀ (project : String) (resources : List String) (db : LedgerDB)
      (B : List Reservation),
      lockOrderOK ((prefetchUsageIds project resources db).map LockEv.usage
        ++ B.map fun r => LockEv.resLock r.uuid) := by
    intro project resources db B
    constructor
    · exact usageFirst_append_general (fun a => a) (fun r => r.uuid) _ B
    · have hids := usageIds_append_general (fun a => a) (fun r : Reservation => r.uuid)
        (prefetchUsageIds project resources db) B
      rw [List.map_id'] at hids
      rw [hids]
      exact List.sorted_insertionSort _ _
  refine ⟨?_, ?_, ?_⟩
  · intro project ids db
    constructor
    · rw [commitLockTrace]
      exact husage project ((selectReservations ids db).map (·.resource)) db
        (selectReservations ids db)
    · rw [rollbackLockTrace]
      exact husage project ((selectReservations ids db).map (·.resource)) db
        (selectReservations ids db)
  · intro project deltaKeys db
    have h := husage project deltaKeys db []
    rw [reserveLockTrace]
    rw [show ((prefetchUsageIds project deltaKeys db).map LockEv.usage
        ++ ([] : List Reservation).map fun r => LockEv.resLock r.uuid)
      = (prefetchUsageIds project deltaKeys db).map LockEv.usage from List.append_nil _] at h
    exact h
  · intro now db
    rw [expireLockTrace, List.reverse_append, ← List.map_reverse, ← List.map_reverse]
    exact usageFirst_append_general (fun r : Reservation => r.usage_id)
      (fun r : Reservation => r.uuid) _ _

end Cinder
